import Mathlib

/-!
# Verification of `bre_utils` core components

A shallow embedding of the two core components of the `bre_utils`
repository, together with proofs of their specified properties.

* `BlockQueue` embeds `src/breutil/block_queue.hpp` (`bre::BlockQueue<T>`),
  a bounded FIFO queue with a one-way close flag.  The C++ class guards its
  state with a mutex and blocks producers/consumers on condition variables;
  here each operation is a pure function on the queue state, and a blocking
  operation reports `blocked` exactly when its C++ wait predicate is false
  (i.e. when the calling thread would suspend).
* `Buffer` embeds `src/breutils/buffer.hpp` (`bre::Buffer`), a growable
  byte buffer with read/write cursors and a reserved prepend region.
  Bytes are modelled as `Nat` (the specific `char` values never matter),
  and the storage `std::vector<char>` as a `List Nat`.
-/

/-! ## BlockQueue (from `src/breutil/block_queue.hpp`) -/

/-- State of `bre::BlockQueue<T>`: `_capacity`, `_isClose`, `_queue`
(front of the `std::queue` = head of the list). -/
structure BlockQueue (α : Type) where
  capacity : Nat
  isClose : Bool
  queue : List α
deriving DecidableEq

/-- Result of the blocking push (`void Push(const T&)`, lines 112-122):
`blocked` = the wait predicate `_isClose || _queue.size() < _capacity` is
false and the thread suspends; `closedError` = the
`throw std::runtime_error("Queue is closed")` path; `pushed` = success. -/
inductive PushResult where
  | blocked
  | closedError
  | pushed
deriving DecidableEq

/-- Result of the blocking pop (`bool Pop(T&)`, lines 182-194):
`blocked` = the wait predicate `_isClose || !_queue.empty()` is false and
the thread suspends; `closedEmpty` = the `return false` path (closed and
empty); `popped a` = success with the front element. -/
inductive PopResult (α : Type) where
  | blocked
  | closedEmpty
  | popped (val : α)
deriving DecidableEq

namespace BlockQueue

variable {α : Type}

/-- `BlockQueue(size_t MaxCapacity)`: open queue, empty storage. -/
def make (cap : Nat) : BlockQueue α := ⟨cap, false, []⟩

/-- `Size()`: `_queue.size()`. -/
def Size (s : BlockQueue α) : Nat := s.queue.length

/-- `Empty()`: `_queue.empty()`. -/
def Empty (s : BlockQueue α) : Bool := s.queue.isEmpty

/-- `Close()` (lines 42-49): sets `_isClose` (the notifications have no
state effect). -/
def Close (s : BlockQueue α) : BlockQueue α := { s with isClose := true }

/-- `SetCapacity(newCapacity)` (lines 67-73): replaces `_capacity`
(the notification has no state effect). -/
def SetCapacity (s : BlockQueue α) (newCapacity : Nat) : BlockQueue α :=
  { s with capacity := newCapacity }

/-- `Clear()` (lines 26-30): replaces `_queue` by a fresh empty queue. -/
def Clear (s : BlockQueue α) : BlockQueue α := { s with queue := [] }

/-- `bool TryPush(const T&)` (lines 92-100): fails iff closed or full. -/
def TryPush (s : BlockQueue α) (item : α) : Bool × BlockQueue α :=
  if s.isClose = true ∨ s.capacity ≤ s.queue.length then (false, s)
  else (true, { s with queue := s.queue ++ [item] })

/-- `std::optional<T> TryPop()` (lines 170-179). -/
def TryPop (s : BlockQueue α) : Option α × BlockQueue α :=
  match s.queue with
  | [] => (none, s)
  | a :: rest => (some a, { s with queue := rest })

/-- `void Push(const T&)` (lines 112-122): wait for
`_isClose || _queue.size() < _capacity`; throw if closed; else enqueue. -/
def Push (s : BlockQueue α) (item : α) : PushResult × BlockQueue α :=
  if ¬ (s.isClose = true ∨ s.queue.length < s.capacity) then (.blocked, s)
  else if s.isClose = true then (.closedError, s)
  else (.pushed, { s with queue := s.queue ++ [item] })

/-- `bool Pop(T&)` (lines 182-194): wait for `_isClose || !_queue.empty()`;
return `false` iff closed and empty; else dequeue the front element. -/
def Pop (s : BlockQueue α) : PopResult α × BlockQueue α :=
  if ¬ (s.isClose = true ∨ s.queue.isEmpty = false) then (.blocked, s)
  else if s.isClose = true ∧ s.queue.isEmpty = true then (.closedEmpty, s)
  else
    match s.queue with
    | [] => (.closedEmpty, s)   -- dead arm: the previous branch covers it
    | a :: rest => (.popped a, { s with queue := rest })

/-- The drain loop of the batch pop (lines 262-266):
`while (!_queue.empty() && count < maxCount)` move the front to `dest`.
Returns (elements moved out, remaining queue). -/
def drainLoop : List α → Nat → List α × List α
  | q, 0 => ([], q)
  | [], _ + 1 => ([], [])
  | a :: q, n + 1 =>
    let r := drainLoop q n
    (a :: r.1, r.2)

/-- `size_t Pop(OutputIt, size_t maxCount)` (lines 254-271): wait for
`_isClose || !_queue.empty()` (`none` = blocked), then drain up to
`maxCount` elements; the returned count is the length of the first
component. -/
def PopBatch (s : BlockQueue α) (maxCount : Nat) :
    Option (List α × BlockQueue α) :=
  if ¬ (s.isClose = true ∨ s.queue.isEmpty = false) then none
  else
    let r := drainLoop s.queue maxCount
    some (r.1, { s with queue := r.2 })

/-- The fast path of `bool Push(InputIt, InputIt)` (lines 228-251): if the
queue is open and `_queue.size() + count <= _capacity`, the whole range is
enqueued under one lock and `true` is returned.  `none` means control
reaches the per-element fallback loop (lines 243-250); that loop's
statement `result = Push(*it);` assigns the `void` result of the blocking
`Push` to `bool`, so the fallback is ill-formed C++ and the template
cannot be instantiated at all. -/
def PushBatchAtomic (s : BlockQueue α) (l : List α) : Option (BlockQueue α) :=
  if s.isClose = false ∧ s.queue.length + l.length ≤ s.capacity then
    some { s with queue := s.queue ++ l }
  else none

/-- Iterated blocking `Pop`, collecting successfully popped values;
stops early on `blocked` or `closedEmpty`. -/
def popN : BlockQueue α → Nat → List α × BlockQueue α
  | s, 0 => ([], s)
  | s, n + 1 =>
    match s.Pop with
    | (.popped a, s2) =>
      let r := popN s2 n
      (a :: r.1, r.2)
    | (.blocked, s2) => ([], s2)
    | (.closedEmpty, s2) => ([], s2)

/-- Iterated blocking `Push`; `true` iff every element was enqueued. -/
def pushList : BlockQueue α → List α → Bool × BlockQueue α
  | s, [] => (true, s)
  | s, a :: rest =>
    match s.Push a with
    | (.pushed, s2) => pushList s2 rest
    | (.blocked, s2) => (false, s2)
    | (.closedError, s2) => (false, s2)

end BlockQueue

/-! ## Buffer (from `src/breutils/buffer.hpp`) -/

deriving instance DecidableEq for Except

/-- State of `bre::Buffer`: `_buffer` (a `std::vector<char>`, bytes
modelled as `Nat`), `_readIndex`, `_writeIndex`. -/
structure Buffer where
  buffer : List Nat
  readIndex : Nat
  writeIndex : Nat
deriving DecidableEq

namespace Buffer

/-- `kPrependSize = 8`. -/
def kPrependSize : Nat := 8

/-- `kInitialSize = 1024`. -/
def kInitialSize : Nat := 1024

/-- `Buffer(size_t initialSize)` (lines 163-166): storage of
`kPrependSize + initialSize` value-initialized (zero) bytes, both cursors
at `kPrependSize`. -/
def make (initialSize : Nat) : Buffer :=
  ⟨List.replicate (kPrependSize + initialSize) 0, kPrependSize, kPrependSize⟩

/-- `ReadableBytes()`: `_writeIndex - _readIndex`. -/
def ReadableBytes (b : Buffer) : Nat := b.writeIndex - b.readIndex

/-- `WritableBytes()`: `_buffer.size() - _writeIndex`. -/
def WritableBytes (b : Buffer) : Nat := b.buffer.length - b.writeIndex

/-- `PrependableBytes()`: `_readIndex`. -/
def PrependableBytes (b : Buffer) : Nat := b.readIndex

/-- `Capacity()`: `_buffer.size()`. -/
def Capacity (b : Buffer) : Nat := b.buffer.length

/-- Well-formedness: the cursor invariant
`0 <= readIndex <= writeIndex <= storage.length` from the spec's data
model.  It holds for a fresh buffer and is preserved by every operation. -/
def WF (b : Buffer) : Prop :=
  b.readIndex ≤ b.writeIndex ∧ b.writeIndex ≤ b.buffer.length

instance (b : Buffer) : Decidable b.WF := by unfold WF; infer_instance

/-- `ToString()` (lines 359-361): `std::string(Peek(), ReadableBytes())`,
the readable byte sequence `storage[readIndex, writeIndex)`. -/
def ToString (b : Buffer) : List Nat :=
  (b.buffer.drop b.readIndex).take b.ReadableBytes

/-- `RetrieveAll()` (lines 288-291): both cursors back to `kPrependSize`. -/
def RetrieveAll (b : Buffer) : Buffer :=
  { b with readIndex := kPrependSize, writeIndex := kPrependSize }

/-- `Retrieve(len)` (lines 267-273): advance the read cursor by `len` if
`len < ReadableBytes()`, else `RetrieveAll()`. -/
def Retrieve (b : Buffer) (len : Nat) : Buffer :=
  if len < b.ReadableBytes then { b with readIndex := b.readIndex + len }
  else b.RetrieveAll

/-- `RetrieveAsString(len)` (lines 304-311): clamp `len` to
`ReadableBytes()`, copy that many bytes from `Peek()`, then retrieve
them.  Returns (extracted bytes, new state). -/
def RetrieveAsString (b : Buffer) (len : Nat) : List Nat × Buffer :=
  let len2 := if b.ReadableBytes < len then b.ReadableBytes else len
  ((b.buffer.drop b.readIndex).take len2, b.Retrieve len2)

/-- `RetrieveAllAsString()` (lines 296-298). -/
def RetrieveAllAsString (b : Buffer) : List Nat × Buffer :=
  b.RetrieveAsString b.ReadableBytes

/-- `std::copy(data, data + len, begin() + pos)` for a source outside the
buffer: write `data` element by element starting at index `pos`
(`List.set` ignores writes past the end; the callers establish that the
target range is in bounds). -/
def writeAt (l : List Nat) (pos : Nat) (data : List Nat) : List Nat :=
  match data with
  | [] => l
  | d :: ds => writeAt (l.set pos d) (pos + 1) ds

/-- `std::copy(begin() + src, begin() + src + n, begin() + dst)` inside
the buffer: a forward element-by-element copy, as `std::copy` performs
it (the `makeSpace` call site has `dst < src`, so the forward copy is
exact even though the ranges may overlap). -/
def copyWithin (l : List Nat) (dst src n : Nat) : List Nat :=
  match n with
  | 0 => l
  | m + 1 => copyWithin (l.set dst (l.getD src 0)) (dst + 1) (src + 1) m

/-- `std::vector<char>::resize(n)`: truncate or pad with zero bytes. -/
def vresize (l : List Nat) (n : Nat) : List Nat :=
  l.take n ++ List.replicate (n - l.length) 0

/-- `makeSpace(len)` (lines 404-417): if
`WritableBytes() + PrependableBytes() < len + kPrependSize`, grow the
storage to `_writeIndex + len`; otherwise shift the readable region down
to `kPrependSize` and reset the cursors. -/
def makeSpace (b : Buffer) (len : Nat) : Buffer :=
  if b.WritableBytes + b.PrependableBytes < len + kPrependSize then
    { b with buffer := vresize b.buffer (b.writeIndex + len) }
  else
    let readable := b.ReadableBytes
    { buffer := copyWithin b.buffer kPrependSize b.readIndex readable,
      readIndex := kPrependSize,
      writeIndex := kPrependSize + readable }

/-- `EnsureWritableBytes(len)` (lines 332-336). -/
def EnsureWritableBytes (b : Buffer) (len : Nat) : Buffer :=
  if b.WritableBytes < len then b.makeSpace len else b

/-- `HasWritten(len)` (lines 342-346): advance the write cursor by `len`
only when `len <= WritableBytes()`; otherwise do nothing. -/
def HasWritten (b : Buffer) (len : Nat) : Buffer :=
  if len ≤ b.WritableBytes then { b with writeIndex := b.writeIndex + len }
  else b

/-- `Append(data, len)` (lines 318-322): ensure space, copy `data` to
`BeginWrite()`, commit with `HasWritten`. -/
def Append (b : Buffer) (data : List Nat) : Buffer :=
  let b1 := b.EnsureWritableBytes data.length
  let b2 := { b1 with buffer := writeAt b1.buffer b1.writeIndex data }
  b2.HasWritten data.length

/-- `Prepend(data, len)` (lines 367-374): throw
`std::length_error("Buffer::Prepend: not enough space")` if
`len > PrependableBytes()`; else move the read cursor back by `len` and
copy `data` immediately before the old readable region. -/
def Prepend (b : Buffer) (data : List Nat) : Except String Buffer :=
  if b.PrependableBytes < data.length then
    .error "Buffer::Prepend: not enough space"
  else
    .ok { b with readIndex := b.readIndex - data.length,
                 buffer := writeAt b.buffer (b.readIndex - data.length) data }

/-- `HasRead(len)` (lines 352-354): alias of `Retrieve`. -/
def HasRead (b : Buffer) (len : Nat) : Buffer := b.Retrieve len

end Buffer

/-! ## Buffer lemmas -/

namespace Buffer

theorem length_writeAt (data : List Nat) :
    ∀ (l : List Nat) (pos : Nat), (writeAt l pos data).length = l.length := by
  induction data with
  | nil => intro l pos; rfl
  | cons d ds ih => intro l pos; rw [writeAt, ih]; simp

theorem length_copyWithin (n : Nat) :
    ∀ (l : List Nat) (dst src : Nat),
      (copyWithin l dst src n).length = l.length := by
  induction n with
  | zero => intro l dst src; rfl
  | succ m ih => intro l dst src; rw [copyWithin, ih]; simp

theorem length_vresize (l : List Nat) (n : Nat) :
    (vresize l n).length = n := by
  simp [vresize]; omega

theorem take_set_succ (l : List Nat) (pos d : Nat) (h : pos < l.length) :
    (l.set pos d).take (pos + 1) = l.take pos ++ [d] := by
  rw [List.set_eq_take_append_cons_drop, if_pos h]
  have hlen : (l.take pos).length = pos := by simp; omega
  rw [show pos + 1 = (l.take pos).length + 1 by rw [hlen], List.take_append]
  simp

/-- The overwrite performed by `writeAt` on an in-bounds range, in closed
form. -/
theorem writeAt_eq (data : List Nat) :
    ∀ (l : List Nat) (pos : Nat), pos + data.length ≤ l.length →
      writeAt l pos data = l.take pos ++ data ++ l.drop (pos + data.length) := by
  induction data with
  | nil => intro l pos h; simp [writeAt]
  | cons d ds ih =>
    intro l pos h
    simp only [List.length_cons] at h
    have hpos : pos < l.length := by omega
    rw [writeAt, ih (l.set pos d) (pos + 1) (by simp; omega)]
    rw [take_set_succ l pos d hpos,
      List.drop_set_of_lt _ _ (by omega : pos < pos + 1 + ds.length)]
    simp only [List.append_assoc, List.cons_append, List.nil_append]
    rw [show pos + 1 + ds.length = pos + (ds.length + 1) by omega]
    simp only [List.length_cons]

/-- The forward in-place copy performed by `copyWithin`, in closed form:
when the destination does not exceed the source, the forward copy moves
the source range exactly, even if the two ranges overlap. -/
theorem copyWithin_eq (n : Nat) :
    ∀ (l : List Nat) (dst src : Nat), dst ≤ src → src + n ≤ l.length →
      copyWithin l dst src n =
        l.take dst ++ (l.drop src).take n ++ l.drop (dst + n) := by
  induction n with
  | zero => intro l dst src _ _; simp [copyWithin]
  | succ m ih =>
    intro l dst src hds h
    have hsrc : src < l.length := by omega
    have hdst : dst < l.length := by omega
    rw [copyWithin,
      ih (l.set dst (l.getD src 0)) (dst + 1) (src + 1) (by omega) (by simp; omega)]
    rw [take_set_succ l dst _ hdst,
      List.drop_set_of_lt _ _ (by omega : dst < src + 1),
      List.drop_set_of_lt _ _ (by omega : dst < dst + 1 + m)]
    rw [List.drop_eq_getElem_cons hsrc, List.take_succ_cons]
    have hgetD : l.getD src 0 = l[src] := by
      simp [List.getD_eq_getElem?_getD, List.getElem?_eq_getElem hsrc]
    rw [hgetD]
    simp only [List.append_assoc, List.cons_append, List.nil_append]
    rw [show dst + 1 + m = dst + (m + 1) by omega]

theorem vresize_grow (l : List Nat) (n : Nat) (h : l.length ≤ n) :
    vresize l n = l ++ List.replicate (n - l.length) 0 := by
  simp [vresize, List.take_of_length_le h]

/-- Behaviour of `makeSpace` when called with insufficient writable
space (the only way `EnsureWritableBytes` calls it): the readable byte
sequence is preserved, the invariant is preserved, at least `len`
writable bytes result, and the two branches move the cursors / resize
the storage exactly as the source does. -/
theorem makeSpace_spec (b : Buffer) (len : Nat) (hwf : b.WF)
    (hlt : b.WritableBytes < len) :
    (b.makeSpace len).ToString = b.ToString ∧
    (b.makeSpace len).WF ∧
    len ≤ (b.makeSpace len).WritableBytes ∧
    (b.makeSpace len).ReadableBytes = b.ReadableBytes ∧
    (b.makeSpace len).readIndex =
      (if b.WritableBytes + b.PrependableBytes < len + kPrependSize then
        b.readIndex else kPrependSize) ∧
    (b.makeSpace len).buffer.length =
      (if b.WritableBytes + b.PrependableBytes < len + kPrependSize then
        b.writeIndex + len else b.buffer.length) := by
  obtain ⟨buf, r, w⟩ := b
  obtain ⟨hrw, hwl⟩ := hwf
  have hrw' : r ≤ w := hrw
  have hwl' : w ≤ buf.length := hwl
  clear hrw hwl
  simp only [WritableBytes, PrependableBytes] at hlt ⊢
  by_cases hg : buf.length - w + r < len + kPrependSize
  · -- growth branch: resize the storage to `writeIndex + len`
    have hblen : buf.length ≤ w + len := by omega
    have hms : makeSpace ⟨buf, r, w⟩ len = ⟨vresize buf (w + len), r, w⟩ := by
      simp only [makeSpace, WritableBytes, PrependableBytes]
      rw [if_pos hg]
    rw [hms, if_pos hg, if_pos hg]
    rw [vresize_grow buf (w + len) hblen]
    refine ⟨?_, ⟨hrw', ?_⟩, ?_, ?_, rfl, ?_⟩
    · simp only [ToString, ReadableBytes]
      rw [List.drop_append_of_le_length (by omega),
        List.take_append_of_le_length (by simp; omega)]
    · simp; omega
    · simp only [WritableBytes]; simp; omega
    · simp only [ReadableBytes]
    · simp; omega
  · -- compaction branch: shift the readable region down to `kPrependSize`
    have h8r : kPrependSize + (len - (buf.length - w)) ≤ r := by
      simp only [kPrependSize] at hg ⊢; omega
    have h8r' : kPrependSize ≤ r := by omega
    have hcw := copyWithin_eq (w - r) buf kPrependSize r h8r' (by omega)
    have hlen8 : (buf.take kPrependSize).length = kPrependSize := by
      simp; omega
    have hlenmid : ((buf.drop r).take (w - r)).length = w - r := by
      simp; omega
    have hms : makeSpace ⟨buf, r, w⟩ len =
        ⟨copyWithin buf kPrependSize r (w - r), kPrependSize,
          kPrependSize + (w - r)⟩ := by
      simp only [makeSpace, WritableBytes, PrependableBytes, ReadableBytes]
      rw [if_neg hg]
    rw [hms, if_neg hg, if_neg hg]
    refine ⟨?_, ⟨?_, ?_⟩, ?_, ?_, rfl, ?_⟩
    · simp only [ToString, ReadableBytes]
      rw [Nat.add_sub_cancel_left, hcw, List.append_assoc,
        List.drop_left' hlen8, List.take_left' hlenmid]
    · exact Nat.le_add_right _ _
    · simp only [length_copyWithin]; omega
    · simp only [WritableBytes, length_copyWithin]; omega
    · simp only [ReadableBytes]; omega
    · simp only [length_copyWithin]

/-- Behaviour of `EnsureWritableBytes`: the readable byte sequence and
its length are preserved, the invariant is preserved, and at least `len`
writable bytes result. -/
theorem ensure_spec (b : Buffer) (len : Nat) (hwf : b.WF) :
    (b.EnsureWritableBytes len).ToString = b.ToString ∧
    (b.EnsureWritableBytes len).WF ∧
    len ≤ (b.EnsureWritableBytes len).WritableBytes ∧
    (b.EnsureWritableBytes len).ReadableBytes = b.ReadableBytes := by
  by_cases hlt : b.WritableBytes < len
  · have h := makeSpace_spec b len hwf hlt
    simp only [EnsureWritableBytes, if_pos hlt]
    exact ⟨h.1, h.2.1, h.2.2.1, h.2.2.2.1⟩
  · simp only [EnsureWritableBytes, if_neg hlt]
    exact ⟨trivial, hwf, by omega, trivial⟩

/-- Behaviour of `Append`: it extends the readable byte sequence by
exactly `data` and preserves the invariant. -/
theorem append_spec (b : Buffer) (data : List Nat) (hwf : b.WF) :
    (b.Append data).ToString = b.ToString ++ data ∧
    (b.Append data).WF ∧
    (b.Append data).ReadableBytes = b.ReadableBytes + data.length := by
  obtain ⟨hts, hwf1, hlen, hrb⟩ := ensure_spec b data.length hwf
  rcases hB : b.EnsureWritableBytes data.length with ⟨B1, R1, W1⟩
  rw [hB] at hts hwf1 hlen hrb
  simp only [WF] at hwf1
  obtain ⟨h1rw, h1wl⟩ := hwf1
  simp only [WritableBytes] at hlen
  simp only [ReadableBytes] at hrb
  simp only [ToString, ReadableBytes] at hts
  have hinb : W1 + data.length ≤ B1.length := by omega
  have hw := writeAt_eq data B1 W1 hinb
  have hlen2 : (writeAt B1 W1 data).length = B1.length :=
    length_writeAt data B1 W1
  have happ : b.Append data = ⟨writeAt B1 W1 data, R1, W1 + data.length⟩ := by
    simp only [Append, hB, HasWritten, WritableBytes, hlen2]
    split
    · rfl
    · next hcond => exact (hcond (by omega)).elim
  rw [happ]
  have hA : ((B1.take W1).drop R1).length = W1 - R1 := by simp; omega
  refine ⟨?_, ?_, ?_⟩
  · simp only [ToString, ReadableBytes]
    rw [hw, List.append_assoc,
      List.drop_append_of_le_length (by simp; omega)]
    rw [show W1 + data.length - R1 =
        ((B1.take W1).drop R1).length + data.length by rw [hA]; omega]
    rw [List.take_append, List.take_append_of_le_length (Nat.le_refl _),
      List.take_length, List.drop_take, hts]
  · simp only [WF, hlen2]; omega
  · simp only [ReadableBytes]; omega

/-- The extraction half of `RetrieveAsString`: with `len` within the
readable region it returns the first `len` readable bytes. -/
theorem retrieveAsString_take (b : Buffer) (len : Nat)
    (hle : len ≤ b.ReadableBytes) :
    (b.RetrieveAsString len).1 = b.ToString.take len := by
  have hnl : ¬ b.ReadableBytes < len := by omega
  simp only [RetrieveAsString, ToString, if_neg hnl, List.take_take]
  rw [Nat.min_eq_left hle]

end Buffer

/-! ## Claim theorems: Buffer -/

/-- **C5.**  When `EnsureWritableBytes len` finds fewer than `len`
writable bytes, it grows the storage to exactly `writeIndex + len` when
`WritableBytes + PrependableBytes < len + kPrependSize` (leaving the read
cursor where it was), and otherwise compacts: it resets the read cursor
to `kPrependSize` and keeps the storage size.  In both cases the readable
byte sequence is unchanged and at least `len` writable bytes result. -/
theorem buffer_ensure_writable_bytes (b : Buffer) (len : Nat) (hwf : b.WF)
    (hlt : b.WritableBytes < len) :
    (b.WritableBytes + b.PrependableBytes < len + Buffer.kPrependSize →
      (b.EnsureWritableBytes len).readIndex = b.readIndex ∧
      (b.EnsureWritableBytes len).buffer.length = b.writeIndex + len) ∧
    (len + Buffer.kPrependSize ≤ b.WritableBytes + b.PrependableBytes →
      (b.EnsureWritableBytes len).readIndex = Buffer.kPrependSize ∧
      (b.EnsureWritableBytes len).buffer.length = b.buffer.length) ∧
    (b.EnsureWritableBytes len).ToString = b.ToString ∧
    len ≤ (b.EnsureWritableBytes len).WritableBytes := by
  have h := Buffer.makeSpace_spec b len hwf hlt
  have hE : b.EnsureWritableBytes len = b.makeSpace len := by
    simp [Buffer.EnsureWritableBytes, hlt]
  rw [hE]
  refine ⟨?_, ?_, h.1, h.2.2.1⟩
  · intro hc
    rw [h.2.2.2.2.1, h.2.2.2.2.2, if_pos hc, if_pos hc]
    exact ⟨rfl, rfl⟩
  · intro hc
    have hc' : ¬ (b.WritableBytes + b.PrependableBytes <
        len + Buffer.kPrependSize) := by omega
    rw [h.2.2.2.2.1, h.2.2.2.2.2, if_neg hc', if_neg hc']
    exact ⟨rfl, rfl⟩

/-- Witness for C5: a buffer with 2 writable and 12 prependable bytes
asked for 5 more; the compaction branch applies and the readable bytes
are preserved. -/
theorem buffer_ensure_writable_bytes_witness :
    ((⟨List.replicate 20 0, 12, 18⟩ : Buffer).EnsureWritableBytes 5).ToString =
      (⟨List.replicate 20 0, 12, 18⟩ : Buffer).ToString :=
  (buffer_ensure_writable_bytes (⟨List.replicate 20 0, 12, 18⟩ : Buffer) 5
    (by decide) (by decide)).2.2.1

set_option maxRecDepth 8192 in
/-- **C6.**  `Prepend` fails with the capacity error exactly when
`len > PrependableBytes()` (and then changes nothing, since the error is
raised before any mutation); otherwise it moves the read cursor back by
`len` and writes the bytes immediately before the readable region, so
the readable sequence becomes `data ++` the old one.  Concretely,
`append "World"` then `prepend "Hello "` then `retrieveAllAsString`
yields `"Hello World"` (byte values of the ASCII strings). -/
theorem buffer_prepend_header (b : Buffer) (data : List Nat) (hwf : b.WF) :
    (b.PrependableBytes < data.length →
      b.Prepend data = Except.error "Buffer::Prepend: not enough space") ∧
    (data.length ≤ b.PrependableBytes →
      ∃ b2, b.Prepend data = Except.ok b2 ∧
        b2.ToString = data ++ b.ToString ∧
        b2.writeIndex = b.writeIndex ∧
        b2.readIndex = b.readIndex - data.length ∧ b2.WF) ∧
    (((Buffer.make Buffer.kInitialSize).Append
        [87, 111, 114, 108, 100]).Prepend
        [72, 101, 108, 108, 111, 32]).map (fun x => x.RetrieveAllAsString.1) =
      Except.ok [72, 101, 108, 108, 111, 32, 87, 111, 114, 108, 100] := by
  obtain ⟨buf, r, w⟩ := b
  obtain ⟨hrw, hwl⟩ := hwf
  have hrw' : r ≤ w := hrw
  have hwl' : w ≤ buf.length := hwl
  clear hrw hwl
  refine ⟨?_, ?_, by decide⟩
  · intro h
    simp only [Buffer.PrependableBytes] at h
    simp only [Buffer.Prepend, Buffer.PrependableBytes]
    rw [if_pos h]
  · intro hle
    simp only [Buffer.PrependableBytes] at hle
    have hP : Buffer.Prepend ⟨buf, r, w⟩ data =
        .ok ⟨Buffer.writeAt buf (r - data.length) data, r - data.length, w⟩ := by
      simp only [Buffer.Prepend, Buffer.PrependableBytes]
      rw [if_neg (by omega)]
    have hw := Buffer.writeAt_eq data buf (r - data.length) (by omega)
    have hlenpre : (buf.take (r - data.length)).length = r - data.length := by
      simp; omega
    refine ⟨_, hP, ?_, rfl, rfl, ?_, ?_⟩
    · simp only [Buffer.ToString, Buffer.ReadableBytes]
      rw [hw, show r - data.length + data.length = r by omega,
        List.append_assoc, List.drop_left' hlenpre,
        show w - (r - data.length) = data.length + (w - r) by omega,
        List.take_append]
    · exact (by omega : r - data.length ≤ w)
    · simp only [Buffer.length_writeAt]; omega

/-- Witness for C6: prepending a 3-byte header to a buffer holding two
readable bytes behind an 8-byte reserve. -/
theorem buffer_prepend_header_witness :
    (((Buffer.make 4).Append [9, 9]).Prepend [1, 2, 3]).map
        (fun x => x.ToString) =
      Except.ok ([1, 2, 3] ++ ((Buffer.make 4).Append [9, 9]).ToString) := by
  obtain ⟨b2, hok, hts, -, -, -⟩ :=
    (buffer_prepend_header ((Buffer.make 4).Append [9, 9]) [1, 2, 3]
      (by decide)).2.1 (by decide)
  rw [hok]
  simp [Except.map, hts]

/-- **C7.**  Round trip: appending any byte sequence `X` to a freshly
constructed buffer (of any initial size) and then retrieving `X.length`
bytes returns exactly `X`. -/
theorem buffer_append_retrieve_round_trip (X : List Nat) (init : Nat) :
    (((Buffer.make init).Append X).RetrieveAsString X.length).1 = X := by
  have hwf : (Buffer.make init).WF := by
    constructor <;> simp [Buffer.make, Buffer.kPrependSize]
  obtain ⟨hts, hwf2, hrb⟩ := Buffer.append_spec (Buffer.make init) X hwf
  have hts0 : (Buffer.make init).ToString = [] := by
    simp [Buffer.ToString, Buffer.make, Buffer.ReadableBytes]
  have hr : ((Buffer.make init).Append X).ReadableBytes = X.length := by
    rw [hrb]; simp [Buffer.ReadableBytes, Buffer.make]
  rw [Buffer.retrieveAsString_take _ _ (le_of_eq hr.symm), hts, hts0]
  simp

/-- Witness for C7 at a concrete byte sequence and initial size. -/
theorem buffer_append_retrieve_round_trip_witness :
    (((Buffer.make 4).Append [1, 2, 3]).RetrieveAsString 3).1 = [1, 2, 3] :=
  buffer_append_retrieve_round_trip [1, 2, 3] 4

/-- **C8.**  `Retrieve len` advances the read cursor by `len` when
`len < ReadableBytes()` and otherwise resets both cursors to
`kPrependSize` (exactly `RetrieveAll`); either way the readable count
drops by `min len readable`.  After a full retrieve the readable count
is 0 and any further retrieve is a no-op that keeps it at 0. -/
theorem buffer_retrieve_clamped (b : Buffer) (len : Nat) :
    b.Retrieve len =
      (if len < b.ReadableBytes then { b with readIndex := b.readIndex + len }
       else b.RetrieveAll) ∧
    (b.Retrieve len).ReadableBytes = b.ReadableBytes - min len b.ReadableBytes ∧
    (b.Retrieve b.ReadableBytes).ReadableBytes = 0 ∧
    (∀ m, (b.Retrieve b.ReadableBytes).Retrieve m = b.Retrieve b.ReadableBytes) := by
  obtain ⟨buf, r, w⟩ := b
  refine ⟨rfl, ?_, ?_, ?_⟩
  · simp only [Buffer.Retrieve]
    split
    · next h =>
      simp only [Buffer.ReadableBytes] at h ⊢
      omega
    · next h =>
      simp only [Buffer.ReadableBytes] at h ⊢
      simp only [Buffer.RetrieveAll, Buffer.ReadableBytes]
      omega
  · simp [Buffer.Retrieve, Buffer.RetrieveAll, Buffer.ReadableBytes]
  · intro m
    simp [Buffer.Retrieve, Buffer.RetrieveAll, Buffer.ReadableBytes]

/-- Witness for C8 at a concrete buffer holding three readable bytes. -/
theorem buffer_retrieve_clamped_witness :
    ((⟨List.replicate 12 0, 8, 11⟩ : Buffer).Retrieve 2).ReadableBytes =
      (⟨List.replicate 12 0, 8, 11⟩ : Buffer).ReadableBytes -
        min 2 (⟨List.replicate 12 0, 8, 11⟩ : Buffer).ReadableBytes :=
  (buffer_retrieve_clamped (⟨List.replicate 12 0, 8, 11⟩ : Buffer) 2).2.1

/-- **C10.**  `HasWritten len` is a silent no-op whenever
`len > WritableBytes()`: the whole state is unchanged and no error is
reported (the function's type has no error channel); only when
`len <= WritableBytes()` does it advance the write cursor by `len`. -/
theorem buffer_hasWritten_silent_noop (b : Buffer) (len : Nat) :
    b.HasWritten len =
      (if len ≤ b.WritableBytes then
        { b with writeIndex := b.writeIndex + len }
       else b) ∧
    (b.WritableBytes < len →
      b.HasWritten len = b ∧ (b.HasWritten len).writeIndex = b.writeIndex) := by
  refine ⟨rfl, ?_⟩
  intro h
  have hnle : ¬ len ≤ b.WritableBytes := by omega
  simp [Buffer.HasWritten, hnle]

/-- Witness for C10: asking to commit 99 bytes with only 2 writable is a
no-op. -/
theorem buffer_hasWritten_silent_noop_witness :
    (⟨List.replicate 12 0, 8, 10⟩ : Buffer).HasWritten 99 =
      (⟨List.replicate 12 0, 8, 10⟩ : Buffer) :=
  ((buffer_hasWritten_silent_noop (⟨List.replicate 12 0, 8, 10⟩ : Buffer) 99).2
    (by decide)).1

/-! ## BlockQueue lemmas -/

namespace BlockQueue

variable {α : Type}

/-- A queue holding `l` yields exactly `l` under `l.length` blocking pops,
regardless of the close flag, and ends empty. -/
theorem popN_drain (l : List α) :
    ∀ (c : Nat) (cl : Bool), popN ⟨c, cl, l⟩ l.length = (l, ⟨c, cl, []⟩) := by
  induction l with
  | nil => intro c cl; simp [popN]
  | cons a rest ih =>
    intro c cl
    simp [popN, Pop, ih]

/-- An open queue with room for all of `l` accepts every element of `l`
by blocking pushes, in order. -/
theorem pushList_all (l : List α) :
    ∀ (c : Nat) (q : List α), q.length + l.length ≤ c →
      pushList ⟨c, false, q⟩ l = (true, ⟨c, false, q ++ l⟩) := by
  induction l with
  | nil => intro c q _; simp [pushList]
  | cons a rest ih =>
    intro c q h
    simp only [List.length_cons] at h
    have hlt : q.length < c := by omega
    have hrec := ih c (q ++ [a]) (by simp; omega)
    simp [pushList, Push, hlt, hrec]

/-- The batch-pop drain loop takes the first `n` elements and leaves the
rest. -/
theorem drainLoop_eq (n : Nat) :
    ∀ q : List α, drainLoop q n = (q.take n, q.drop n) := by
  induction n with
  | zero => intro q; simp [drainLoop]
  | succ m ih =>
    intro q
    cases q with
    | nil => simp [drainLoop]
    | cons a rest => simp [drainLoop, ih]

end BlockQueue

/-! ## Claim theorems: BlockQueue -/

/-- **C1.**  The blocking `Pop` returns false only when the queue is
closed and empty.  After `Close()` on a queue holding `k` elements,
`Pop` succeeds exactly `k` more times, returning the remaining elements
in FIFO order, then every further `Pop` fails; and every (blocked or
new) `Push` on a closed queue does not block and fails with the closed
error. -/
theorem blockQueue_close_drains_then_fails {α : Type}
    (s : BlockQueue α) (h : s.isClose = true) :
    BlockQueue.popN s s.queue.length = (s.queue, { s with queue := [] }) ∧
    ({ s with queue := ([] : List α) } : BlockQueue α).Pop =
      (PopResult.closedEmpty, { s with queue := ([] : List α) }) ∧
    (∀ a : α, (s.Push a).1 = PushResult.closedError ∧ (s.Push a).2 = s) ∧
    (∀ t : BlockQueue α,
      (t.Pop).1 = PopResult.closedEmpty → t.isClose = true ∧ t.queue = []) := by
  obtain ⟨c, cl, q⟩ := s
  subst h
  refine ⟨BlockQueue.popN_drain q c true, by simp [BlockQueue.Pop], ?_, ?_⟩
  · intro a; simp [BlockQueue.Push]
  · intro t
    obtain ⟨c2, cl2, q2⟩ := t
    cases cl2 <;> cases q2 <;> simp [BlockQueue.Pop]

/-- Witness for C1 at a concrete closed queue holding two elements. -/
theorem blockQueue_close_drains_then_fails_witness :
    BlockQueue.popN (⟨3, true, [10, 20]⟩ : BlockQueue Nat) 2 =
      ([10, 20], ⟨3, true, []⟩) :=
  (blockQueue_close_drains_then_fails (⟨3, true, [10, 20]⟩ : BlockQueue Nat)
    rfl).1

/-- **C2.**  FIFO order: starting from an open empty queue with capacity
for all of `l`, pushing `l` succeeds element by element, and the next
`l.length` pops return exactly `l` in order. -/
theorem blockQueue_fifo_order {α : Type}
    (s : BlockQueue α) (l : List α) (hopen : s.isClose = false)
    (hempty : s.queue = []) (hcap : l.length ≤ s.capacity) :
    BlockQueue.pushList s l = (true, { s with queue := l }) ∧
    BlockQueue.popN { s with queue := l } l.length =
      (l, { s with queue := ([] : List α) }) := by
  obtain ⟨c, cl, q⟩ := s
  simp only at hopen hempty hcap
  subst hopen; subst hempty
  exact ⟨by simpa using BlockQueue.pushList_all l c [] (by simpa using hcap),
    BlockQueue.popN_drain l c false⟩

/-- Witness for C2: pushing `[1, 2, 3]` into an empty capacity-3 queue,
then popping three times. -/
theorem blockQueue_fifo_order_witness :
    BlockQueue.pushList (⟨3, false, []⟩ : BlockQueue Nat) [1, 2, 3] =
      (true, ⟨3, false, [1, 2, 3]⟩) :=
  (blockQueue_fifo_order (⟨3, false, []⟩ : BlockQueue Nat) [1, 2, 3]
    rfl rfl (by decide)).1

/-- **C4.**  `SetCapacity` never touches the stored elements (a shrink
below the current size evicts nothing); the size-within-capacity
invariant is preserved by `TryPush`, blocking `Push`, and blocking
`Pop`; and concretely, on a capacity-3 queue holding `[1, 2, 3]`,
`TryPush 4` fails, while after `SetCapacity 5` it succeeds. -/
theorem blockQueue_capacity_invariant {α : Type}
    (s : BlockQueue α) (a : α) (n : Nat) (hinv : s.Size ≤ s.capacity) :
    (s.SetCapacity n).queue = s.queue ∧
    (s.SetCapacity n).isClose = s.isClose ∧
    (s.TryPush a).2.Size ≤ (s.TryPush a).2.capacity ∧
    (s.Push a).2.Size ≤ (s.Push a).2.capacity ∧
    (s.Pop).2.Size ≤ (s.Pop).2.capacity ∧
    ((⟨3, false, [1, 2, 3]⟩ : BlockQueue Nat).TryPush 4).1 = false ∧
    ((⟨3, false, [1, 2, 3]⟩ : BlockQueue Nat).SetCapacity 5).TryPush 4 =
      (true, ⟨5, false, [1, 2, 3, 4]⟩) := by
  obtain ⟨c, cl, q⟩ := s
  simp only [BlockQueue.Size] at hinv
  refine ⟨rfl, rfl, ?_, ?_, ?_, by decide, by decide⟩
  · simp only [BlockQueue.TryPush, BlockQueue.Size]
    split
    · exact hinv
    · next hcond =>
      simp only [not_or, not_le] at hcond
      simp only [List.length_append, List.length_cons, List.length_nil]
      omega
  · cases cl with
    | true => simp [BlockQueue.Push, BlockQueue.Size, hinv]
    | false =>
      by_cases hroom : q.length < c
      · simp [BlockQueue.Push, BlockQueue.Size, hroom]; omega
      · simp [BlockQueue.Push, BlockQueue.Size, hroom, hinv]
  · cases cl <;> cases q <;>
      simp_all [BlockQueue.Pop, BlockQueue.Size] <;> omega

/-- Witness for C4 at a concrete queue satisfying the invariant. -/
theorem blockQueue_capacity_invariant_witness :
    ((⟨3, false, [1, 2, 3]⟩ : BlockQueue Nat).SetCapacity 5).queue =
      (⟨3, false, [1, 2, 3]⟩ : BlockQueue Nat).queue :=
  (blockQueue_capacity_invariant (⟨3, false, [1, 2, 3]⟩ : BlockQueue Nat)
    4 5 (by decide)).1

/-- **C9.**  Batch pop on a queue with at least one element available:
it drains the first `min maxCount size` elements without blocking,
returns that count, and leaves exactly the rest; in particular, on a
queue holding 3 elements, a batch pop of up to 5 returns all 3 and
leaves the queue empty. -/
theorem blockQueue_pop_batch_clamps {α : Type}
    (s : BlockQueue α) (maxCount : Nat) (hav : s.queue ≠ []) :
    s.PopBatch maxCount =
      some (s.queue.take maxCount, { s with queue := s.queue.drop maxCount }) ∧
    (s.queue.take maxCount).length = min maxCount s.queue.length ∧
    (s.queue.length ≤ maxCount →
      s.PopBatch maxCount = some (s.queue, { s with queue := ([] : List α) })) ∧
    (⟨10, false, [1, 2, 3]⟩ : BlockQueue Nat).PopBatch 5 =
      some ([1, 2, 3], ⟨10, false, []⟩) := by
  have hne : s.queue.isEmpty = false := by
    cases hq : s.queue with
    | nil => exact absurd hq hav
    | cons a rest => simp
  refine ⟨?_, by simp [List.length_take], ?_, by decide⟩
  · simp [BlockQueue.PopBatch, hne, BlockQueue.drainLoop_eq]
  · intro hle
    simp [BlockQueue.PopBatch, hne, BlockQueue.drainLoop_eq,
      List.take_of_length_le hle, List.drop_eq_nil_of_le hle]

/-- Witness for C9: batch pop of up to 5 from a queue holding 3. -/
theorem blockQueue_pop_batch_clamps_witness :
    (⟨10, false, [1, 2, 3]⟩ : BlockQueue Nat).PopBatch 5 =
      some ([1, 2, 3].take 5, ⟨10, false, [1, 2, 3].drop 5⟩) :=
  (blockQueue_pop_batch_clamps (⟨10, false, [1, 2, 3]⟩ : BlockQueue Nat) 5
    (by decide)).1

/-- **C3** (code bug).  The batch push fast path: with capacity 10 and an
empty open queue, the whole 5-element range is enqueued atomically in
range order.  With capacity 3 (the repository's own
`BlockQueue_PushBatch_Capacity_Limit` test input), the fast-path guard
fails and control reaches the per-element fallback loop — whose statement
`result = Push(*it);` assigns the `void` result of the blocking `Push`
to `bool`, so the code does not compile there. -/
theorem blockQueue_push_batch_fast_path :
    BlockQueue.PushBatchAtomic (⟨10, false, []⟩ : BlockQueue Nat)
      [1, 2, 3, 4, 5] = some ⟨10, false, [1, 2, 3, 4, 5]⟩ ∧
    BlockQueue.PushBatchAtomic (⟨3, false, []⟩ : BlockQueue Nat)
      [1, 2, 3, 4, 5] = none := by decide
